import Mathlib

/-!
Shallow embedding of the layout/coordination code of the shiviz excerpt:
`src/js/graphBuilderHost.js` (host-color allocator, host node lists) and
`src/js/visualization/global.js` (the Global layout coordinator).

JavaScript numbers are modelled as exact rationals (`ℚ`); `Math.floor` is `Int.floor`.
For every concrete computation appearing in the claims (the 9 palette entries, the
sidebar grid constants) the rational result of each `Math.floor`/`Math.ceil` agrees
with IEEE double evaluation, because the values floored are bounded away from the
integers by far more than the rounding error of the double computation.
Division by zero (which in JavaScript produces `Infinity`/`NaN`) is flagged
explicitly where it can occur: the clamp test of `resize` is modelled by a case
split on the divisor (see `Global.resize`), and theorems about the remaining
fields carry a hypothesis restricting them to the region where the rational
model and the IEEE semantics agree.
-/

/-- Value of `Global.HOST_SQUARE_SIZE` (global.js line 39). -/
def HOST_SQUARE_SIZE : ℕ := 25

/-- Value of `Global.SIDE_BAR_WIDTH` (global.js line 34). -/
def SIDE_BAR_WIDTH : ℕ := 240

/-- Function `HSVtoRGB(h, s, v)` of graphBuilderHost.js lines 69-91, numeric path:
the object-argument branch on line 71 is skipped because `s` and `v` are supplied
by every call in this excerpt.  `i % 6` is JavaScript's remainder; for the
non-negative `i` produced by every call here it coincides with `Int.emod`.
The `switch` has no default case; for `h ≥ 0` the scrutinee is always in 0..5,
so the final match arm is exactly the `case 5` of the source. -/
def HSVtoRGB (h s v : ℚ) : String :=
  let i : ℤ := ⌊h * 6⌋
  let f : ℚ := h * 6 - (i : ℚ)
  let p : ℚ := v * (1 - s)
  let q : ℚ := v * (1 - f * s)
  let t : ℚ := v * (1 - (1 - f) * s)
  let rgb : ℚ × ℚ × ℚ :=
    match (i.emod 6).toNat with
    | 0 => (v, t, p)
    | 1 => (q, v, p)
    | 2 => (p, v, t)
    | 3 => (p, q, v)
    | 4 => (t, p, v)
    | _ => (v, p, q)
  let r : ℤ := ⌊rgb.1 * 255⌋
  let g : ℤ := ⌊rgb.2.1 * 255⌋
  let b : ℤ := ⌊rgb.2.2 * 255⌋
  "rgb(" ++ toString r ++ "," ++ toString g ++ "," ++ toString b ++ ")"

namespace GraphBuilderHost

/-- Top-level loop of graphBuilderHost.js lines 93-94:
`for (var i = 9; i > 0; i--) GraphBuilderHost.colors.push(HSVtoRGB(i / 9 + .4, .4, .8));`
`colorsLoop n` is the array contents after the iterations `i = n, n-1, ..., 1`,
in array order (index 0 is the first pushed entry, `i = n`). -/
def colorsLoop : ℕ → List String
  | 0 => []
  | n + 1 => HSVtoRGB (((n : ℚ) + 1) / 9 + 4/10) (4/10) (8/10) :: colorsLoop n

/-- Static field `GraphBuilderHost.colors` (graphBuilderHost.js lines 65, 93-94):
the palette as it stands after the top-level loop has run once at startup.
`Array.pop` takes the LAST element of this list. -/
def colors : List String := colorsLoop 9

end GraphBuilderHost

/-- State of the pieces of the page the `GraphBuilderHost` constructor touches:
the shared color stack and the `.add` affordance (its `disabled` attribute and
its CSS background; `none` models the `undefined` read of
`colors[colors.length - 1]` on an empty array). -/
structure BuilderUI where
  colors : List String
  addDisabled : Bool
  addBackground : Option String
  deriving DecidableEq, Repr

/-- Distinct JavaScript objects that can appear in a host's `nodes` array.
`GraphBuilderHost` and `GraphBuilderNode` instances are different objects, so
strict equality between a host and a node is always false; the two constructors
keep those identities apart. -/
structure GBNode where
  nid : ℕ
  circle : ℕ
  lines : List ℕ
  deriving DecidableEq, Repr

/-- Object identity for the untyped contents of a `nodes` array: either a
`GraphBuilderNode` (what `addNode` pushes) or a `GraphBuilderHost`. -/
inductive BuilderObj : Type
  | node (n : GBNode)
  | host (hid : ℕ)
  deriving DecidableEq, Repr

/-- A constructed `GraphBuilderHost` (fields set by the constructor, lines 10-15
of graphBuilderHost.js; the SVG `rect` and `line` elements are external rendering
side effects outside this excerpt's data model). -/
structure CreatedHost where
  rx : ℚ
  x : ℚ
  color : String
  nodes : List BuilderObj
  deriving DecidableEq, Repr

/-- Constructor `GraphBuilderHost(graphBuilder, hostNum)` (graphBuilderHost.js
lines 1-35) as a state transition on the shared UI state.  Returns the new state
and the constructed host, or `none` when the early return on line 6 fires
(empty color stack: no pop, no fields assigned).  Line 7-8 disables `.add`
when exactly one color remains BEFORE the pop; line 14 pops the last array
element; line 34 sets the `.add` background to the new last element. -/
def createHost (ui : BuilderUI) (hostNum : ℕ) : BuilderUI × Option CreatedHost :=
  if ui.colors.length = 0 then
    (ui, none)
  else
    let ui1 := if ui.colors.length = 1 then { ui with addDisabled := true } else ui
    let color := ui1.colors.getLast?.getD ""
    let rest := ui1.colors.dropLast
    let host : CreatedHost :=
      { rx := (hostNum : ℚ) * 65, x := (hostNum : ℚ) * 65 + 25/2, color := color, nodes := [] }
    ({ ui1 with colors := rest, addBackground := rest.getLast? }, some host)

/-- The shared UI state at startup, before any host has been created: the full
9-color palette, `.add` enabled. -/
def initialUI : BuilderUI :=
  { colors := GraphBuilderHost.colors, addDisabled := false, addBackground := none }

/-- State reached from `initialUI` after `n` consecutive `GraphBuilderHost`
constructions. -/
def uiAfter (n : ℕ) : BuilderUI :=
  (fun u => (createHost u 0).1)^[n] initialUI

/-- A View as the coordinator sees it through its narrow interface:
`getHosts()`, `getTransformer().getHiddenHosts()` and `setWidth(w)` (the width
is the only view state `resize` mutates). -/
structure View where
  hosts : List String
  hiddenHosts : List String
  width : ℚ
  deriving DecidableEq, Repr

/-- State of the Global singleton (global.js lines 15-49): the ordered view
list and the host permutation (`null` until `setHostPermutation` is called;
modelled through its `getHosts()` result, the full ordered host list). -/
structure Global where
  views : List View
  hostPermutation : Option (List String)
  deriving DecidableEq, Repr

/-- Insertion of one key into a JavaScript object used as a set
(`hiddenHosts[host] = true`): a fresh key is appended to the key order,
an existing key is left in place. -/
def insertKey (keys : List String) (host : String) : List String :=
  if host ∈ keys then keys else keys ++ [host]

/-- Method `Global.prototype.getHiddenHosts` (global.js lines 85-95): the keys,
in insertion order, of the object built by iterating over every view's hidden
hosts. -/
def Global.getHiddenHosts (g : Global) : List String :=
  g.views.foldl (fun acc v => v.hiddenHosts.foldl insertKey acc) []

/-- The variables of `Global.prototype.resize` still live at the end of the
call: the view list with the new widths, the width applied to `#graph`
(the final value of `middleWidth`), the returned `hostMargin`, and
`widthPerHost`. -/
structure ResizeResult where
  views : List View
  graphWidth : ℚ
  hostMargin : ℚ
  widthPerHost : ℚ
  deriving DecidableEq, Repr

/-- Body of `Global.prototype.resize` (global.js lines 176-212) for a non-null
host permutation with host list `permHosts`.  `middleWidth` is the measured
`$(window).width() - sidebarLeft - sidebarRight`, an input here.
The clamp test on line 189 is `totalMargin / divisor < 25` in IEEE
arithmetic; when the divisor is 0 the quotient is `+Infinity` (totalMargin > 0),
`NaN` (= 0) or `-Infinity` (< 0), so the comparison holds exactly when
`totalMargin < 0`; that case split reproduces the IEEE outcome exactly.  In the
remaining divisor-0 no-clamp states the rational quotient `totalMargin / 0 = 0`
stands in for an `Infinity`/`NaN` that JavaScript would propagate; theorems
about the affected fields exclude that region (`visibleHosts = 1` is unaffected:
lines 197-200 overwrite both values before they are used). -/
def Global.resizeWith (g : Global) (permHosts : List String) (middleWidth : ℚ) :
    ResizeResult :=
    let hiddenHosts := g.getHiddenHosts
    let numHidden : ℕ := hiddenHosts.length
    let allHosts : ℕ := permHosts.length
    let visibleHosts : ℤ := (allHosts : ℤ) - (numHidden : ℤ)
    let totalMargin : ℚ := middleWidth - (visibleHosts : ℚ) * (HOST_SQUARE_SIZE : ℚ)
    let divisor : ℤ := visibleHosts + (g.views.length : ℤ) - 2
    let clamp : Bool :=
      if divisor = 0 then decide (totalMargin < 0)
      else decide (totalMargin / (divisor : ℚ) < (HOST_SQUARE_SIZE : ℚ))
    let hostMargin : ℚ :=
      if clamp then (HOST_SQUARE_SIZE : ℚ) else totalMargin / (divisor : ℚ)
    let totalMargin2 : ℚ :=
      if clamp then (HOST_SQUARE_SIZE : ℚ) * (divisor : ℚ) else totalMargin
    let middleWidth2 : ℚ :=
      if clamp then totalMargin2 + (visibleHosts : ℚ) * (HOST_SQUARE_SIZE : ℚ)
      else middleWidth
    let widthPerHost : ℚ := (HOST_SQUARE_SIZE : ℚ) + hostMargin
    let widthPerHost2 : ℚ := if visibleHosts = 1 then middleWidth2 else widthPerHost
    let hostMargin2 : ℚ := if visibleHosts = 1 then 0 else hostMargin
    let newViews : List View := g.views.map (fun v =>
      let hosts := v.hosts.filter (fun h => !(hiddenHosts.contains h))
      { v with width := (hosts.length : ℚ) * widthPerHost2 - hostMargin2 })
    { views := newViews, graphWidth := middleWidth2,
      hostMargin := hostMargin2, widthPerHost := widthPerHost2 }

/-- Method `Global.prototype.resize`, entry point: line 180 dereferences
`this.hostPermutation`, which throws when the permutation is still null;
otherwise the body `Global.resizeWith` runs on its `getHosts()` list. -/
def Global.resize (g : Global) (middleWidth : ℚ) : Option ResizeResult :=
  g.hostPermutation.map (fun permHosts => g.resizeWith permHosts middleWidth)

/-- Number of visible hosts as computed on lines 179-181 of `resize`. -/
def Global.visibleHosts (g : Global) (permHosts : List String) : ℤ :=
  (permHosts.length : ℤ) - (g.getHiddenHosts.length : ℤ)

/-- The divisor `visibleHosts + this.views.length - 2` of line 187 of `resize`. -/
def Global.resizeDivisor (g : Global) (permHosts : List String) : ℤ :=
  g.visibleHosts permHosts + (g.views.length : ℤ) - 2

/-- Value `hostsPerLine` of global.js line 234:
`Math.floor((SIDE_BAR_WIDTH + 5) / (HOST_SQUARE_SIZE + 5))`; natural division
is the floor of the exact quotient of these positive integers. -/
def hostsPerLine : ℕ := (SIDE_BAR_WIDTH + 5) / (HOST_SQUARE_SIZE + 5)

/-- Sequence of `y` attributes assigned by the callback of global.js lines
258-266: `count` and `y` start at 0; each rect does `count++`, wraps `y` by
`HOST_SQUARE_SIZE + 5` resetting `count` to 1 when `count > hostsPerLine`, and
is placed at the current `y`.  `n` is the number of rects still to place,
`count` and `y` the current mutable state. -/
def sideBarYs : ℕ → ℕ → ℕ → List ℕ
  | 0, _, _ => []
  | n + 1, count, y =>
    let count1 := count + 1
    if hostsPerLine < count1 then
      (y + (HOST_SQUARE_SIZE + 5)) :: sideBarYs n 1 (y + (HOST_SQUARE_SIZE + 5))
    else
      y :: sideBarYs n count1 y

/-- Sequence of `x` attributes assigned by the callback of global.js lines
267-273: `x` starts at `SIDE_BAR_WIDTH`; each rect does
`x += HOST_SQUARE_SIZE + 5`, resets `x` to 0 when
`x + HOST_SQUARE_SIZE > SIDE_BAR_WIDTH`, and is placed at the current `x`. -/
def sideBarXs : ℕ → ℕ → List ℕ
  | 0, _ => []
  | n + 1, x =>
    let x1 := x + (HOST_SQUARE_SIZE + 5)
    if SIDE_BAR_WIDTH < x1 + HOST_SQUARE_SIZE then
      0 :: sideBarXs n 0
    else
      x1 :: sideBarXs n x1

/-- Geometry produced by one `drawSideBar` pass: the height given to the
`hidden-hosts` svg (line 243) and the `x`/`y` cell positions of the hidden-host
squares, in hidden-host order. -/
structure SideBarLayout where
  svgHeight : ℤ
  xs : List ℕ
  ys : List ℕ
  deriving DecidableEq, Repr

/-- Method `Global.prototype.drawSideBar` (global.js lines 219-276), reduced to
the grid geometry it lays out.  Returns `none` when there are no hidden hosts
(lines 227-230: the section is hidden and the method returns before creating
the svg or any rect).  `Math.ceil(hh.length / hostsPerLine)` on line 243 is the
ceiling division of two exact small integers. -/
def Global.drawSideBar (g : Global) : Option SideBarLayout :=
  let hh := g.getHiddenHosts
  if hh.length ≤ 0 then none
  else some
    { svgHeight := ((hh.length + hostsPerLine - 1) / hostsPerLine : ℕ) *
        ((HOST_SQUARE_SIZE : ℤ) + 5) - 5,
      xs := sideBarXs hh.length SIDE_BAR_WIDTH,
      ys := sideBarYs hh.length 0 0 }

/-- Constructor `Global()` (global.js lines 15-49) as a function of the current
value of the static `Global.instance` field.  When an instance already exists
the constructor throws (line 18; the `Exception` identifier is itself undefined
in this excerpt, so the construction of the error value throws a
ReferenceError — either way the constructor call throws and produces nothing).
Otherwise the fields are initialised: empty view list, null permutation. -/
def Global.construct (inst : Option Global) : Except String Global :=
  match inst with
  | some _ => .error "Global is a singleton - use getInstance() instead."
  | none => .ok { views := [], hostPermutation := none }

/-- Static accessor `Global.getInstance` (global.js lines 62-67): creates the
instance through the constructor when `Global.instance` is unset, then returns
`Global.instance`.  The result pairs the returned instance with the new value
of the static field. -/
def Global.getInstance (inst : Option Global) : Except String (Global × Option Global) :=
  match inst with
  | some g => .ok (g, some g)
  | none => (Global.construct none).map (fun g => (g, some g))

/-- The drawing surface as the set (list) of SVG element ids currently attached;
`elem.remove()` detaches one element. -/
structure Surface where
  elems : List ℕ
  deriving DecidableEq, Repr

/-- Effect of `element.remove()`: the element is detached from the surface. -/
def Surface.removeElem (s : Surface) (e : ℕ) : Surface := ⟨s.elems.erase e⟩

/-- Modelled from the spec: the repository's `Array.remove(array, element)`
utility, declared in the repository's util.js which is outside this excerpt and
not described further by the spec.  From its name and call shape it removes the
first occurrence of `element` from `array` under strict object equality and
leaves the array unchanged when `element` does not occur. -/
def arrayRemove (arr : List BuilderObj) (elem : BuilderObj) : List BuilderObj :=
  arr.erase elem

/-- The per-host state touched by `removeNode`/`removeAllNodes`: the host's
object identity and its `nodes` array. -/
structure GBHost where
  hid : ℕ
  nodes : List BuilderObj
  deriving DecidableEq, Repr

/-- Method `GraphBuilderHost.prototype.removeNode` (graphBuilderHost.js lines
48-55): detaches each of the node's lines, calls `Array.remove(this.nodes, this)`
— the host object itself, not `node`, is passed as the element to remove —
then detaches the node's circle.  `graphBuilder.convert()` is external and
touches none of the state modelled here. -/
def GBHost.removeNode (h : GBHost) (s : Surface) (nd : GBNode) : GBHost × Surface :=
  let s1 := nd.lines.foldl Surface.removeElem s
  let h1 : GBHost := { h with nodes := arrayRemove h.nodes (BuilderObj.host h.hid) }
  let s2 := s1.removeElem nd.circle
  (h1, s2)

/-- Loop of `GraphBuilderHost.prototype.removeAllNodes` (graphBuilderHost.js
lines 58-60): `for (var i = 0; i < this.nodes.length; i++)
this.removeNode(this.nodes[i]);` — the bound and the element are re-read from
the current state each iteration.  A `nodes` entry that is not a node object
would make the source throw on `node.lines`; `addNode` only ever pushes node
objects, so that arm is unreachable and is modelled as a skip. -/
def GBHost.removeAllLoop (h : GBHost) (s : Surface) (i : ℕ) : GBHost × Surface :=
  if hlt : i < h.nodes.length then
    match h.nodes.get ⟨i, hlt⟩ with
    | BuilderObj.node nd =>
        GBHost.removeAllLoop (h.removeNode s nd).1 (h.removeNode s nd).2 (i + 1)
    | BuilderObj.host _ => GBHost.removeAllLoop h s (i + 1)
  else (h, s)
termination_by h.nodes.length - i
decreasing_by
  · have hle : ((h.removeNode s nd).1.nodes).length ≤ h.nodes.length := by
      simp only [GBHost.removeNode, arrayRemove]
      exact (List.erase_sublist _ _).length_le
    omega
  · omega

/-- Method `GraphBuilderHost.prototype.removeAllNodes` (graphBuilderHost.js
lines 57-62): runs the loop, then assigns a fresh empty array to `this.nodes`. -/
def GBHost.removeAllNodes (h : GBHost) (s : Surface) : GBHost × Surface :=
  let p := h.removeAllLoop s 0
  ({ p.1 with nodes := [] }, p.2)

/-- Store of array objects reachable from the coordinator: JavaScript arrays
are reference values, so `this.views` and the result of `slice()` are distinct
cells in this store, addressed by reference.  Views themselves are opaque and
numbered. -/
structure ViewsHeap where
  cells : List (List ℕ)
  deriving DecidableEq, Repr

/-- Contents of the array object behind reference `r`. -/
def ViewsHeap.readRef (h : ViewsHeap) (r : ℕ) : List ℕ := (h.cells.get? r).getD []

/-- In-place mutation of the array object behind reference `r` (covers
appending, removing and reordering: any new contents). -/
def ViewsHeap.writeRef (h : ViewsHeap) (r : ℕ) (xs : List ℕ) : ViewsHeap :=
  ⟨h.cells.set r xs⟩

/-- Allocation of a fresh array object with the given contents. -/
def ViewsHeap.alloc (h : ViewsHeap) (xs : List ℕ) : ViewsHeap × ℕ :=
  (⟨h.cells ++ [xs]⟩, h.cells.length)

/-- Method `Global.prototype.getViews` (global.js lines 160-162):
`return this.views.slice();` — `slice()` allocates a new array object holding
the same elements in the same order; `viewsRef` is the reference stored in
`this.views`.  Returns the updated store and the reference handed to the
caller. -/
def ViewsHeap.getViews (h : ViewsHeap) (viewsRef : ℕ) : ViewsHeap × ℕ :=
  h.alloc (h.readRef viewsRef)

theorem mem_insertKey {keys : List String} {h a : String} :
    a ∈ insertKey keys h ↔ a ∈ keys ∨ a = h := by
  by_cases hmem : h ∈ keys
  · simp only [insertKey, if_pos hmem]
    constructor
    · exact Or.inl
    · rintro (ha | rfl)
      · exact ha
      · exact hmem
  · simp [insertKey, if_neg hmem]

theorem insertKey_nodup {keys : List String} {h : String} (hn : keys.Nodup) :
    (insertKey keys h).Nodup := by
  by_cases hmem : h ∈ keys
  · simpa [insertKey, if_pos hmem] using hn
  · rw [insertKey, if_neg hmem]
    rw [List.nodup_append]
    exact ⟨hn, List.nodup_singleton h, by
      intro a ha hb
      rw [List.mem_singleton] at hb
      exact hmem (hb ▸ ha)⟩

theorem mem_foldl_insertKey (l : List String) (acc : List String) (a : String) :
    a ∈ l.foldl insertKey acc ↔ a ∈ acc ∨ a ∈ l := by
  induction l generalizing acc with
  | nil => simp
  | cons x xs ih =>
    rw [List.foldl_cons, ih, mem_insertKey, List.mem_cons]
    tauto

theorem foldl_insertKey_nodup (l : List String) (acc : List String) (hn : acc.Nodup) :
    (l.foldl insertKey acc).Nodup := by
  induction l generalizing acc with
  | nil => exact hn
  | cons x xs ih => exact ih _ (insertKey_nodup hn)

theorem mem_hiddenHosts_foldl (vs : List View) (acc : List String) (a : String) :
    a ∈ vs.foldl (fun acc v => v.hiddenHosts.foldl insertKey acc) acc ↔
      a ∈ acc ∨ ∃ v ∈ vs, a ∈ v.hiddenHosts := by
  induction vs generalizing acc with
  | nil => simp
  | cons v vs ih =>
    rw [List.foldl_cons, ih, mem_foldl_insertKey]
    constructor
    · rintro ((ha | hv) | ⟨w, hw, haw⟩)
      · exact Or.inl ha
      · exact Or.inr ⟨v, List.mem_cons_self v vs, hv⟩
      · exact Or.inr ⟨w, List.mem_cons_of_mem v hw, haw⟩
    · rintro (ha | ⟨w, hw, haw⟩)
      · exact Or.inl (Or.inl ha)
      · rcases List.mem_cons.mp hw with rfl | hw2
        · exact Or.inl (Or.inr haw)
        · exact Or.inr ⟨w, hw2, haw⟩

theorem hiddenHosts_foldl_nodup (vs : List View) (acc : List String) (hn : acc.Nodup) :
    (vs.foldl (fun acc v => v.hiddenHosts.foldl insertKey acc) acc).Nodup := by
  induction vs generalizing acc with
  | nil => exact hn
  | cons v vs ih => exact ih _ (foldl_insertKey_nodup _ _ hn)

/-- C6: `getHiddenHosts()` returns exactly the union over all views of that
view's hidden-host subset, as a set of host identities with duplicates
collapsed: a host hidden by two or more views appears exactly once. -/
theorem getHiddenHosts_union_dedup (g : Global) :
    (Global.getHiddenHosts g).Nodup ∧
      ∀ a : String,
        a ∈ Global.getHiddenHosts g ↔ ∃ v ∈ g.views, a ∈ v.hiddenHosts := by
  constructor
  · exact hiddenHosts_foldl_nodup g.views [] List.nodup_nil
  · intro a
    rw [Global.getHiddenHosts, mem_hiddenHosts_foldl]
    simp

/-- C8: invoking the `Global` constructor while an instance already exists
throws; `getInstance()` always returns the one existing instance (creating it
first when the static field is still unset), and calling it again afterwards
returns that same instance. -/
theorem global_singleton_guard :
    (∀ g : Global, Global.construct (some g) =
        Except.error "Global is a singleton - use getInstance() instead.") ∧
      (∀ g : Global, Global.getInstance (some g) = Except.ok (g, some g)) ∧
      ∃ g0 : Global, Global.getInstance none = Except.ok (g0, some g0) ∧
        Global.getInstance (some g0) = Except.ok (g0, some g0) :=
  ⟨fun _ => rfl, fun _ => rfl,
    ⟨{ views := [], hostPermutation := none }, rfl, rfl⟩⟩

/-- C4: the startup palette holds exactly 9 distinct RGB strings, is the fixed
list shown (deterministic, byte-identical across runs), and entry `k` is the
HSV sweep value for `i = 9 - k` (hue `i/9 + 0.4`, saturation `0.4`, value
`0.8`) converted by the sector formula of `HSVtoRGB`. -/
theorem palette_nine_distinct_deterministic :
    GraphBuilderHost.colors.length = 9 ∧
      GraphBuilderHost.colors.Nodup ∧
      GraphBuilderHost.colors =
        ["rgb(122,204,155)", "rgb(144,204,122)", "rgb(198,204,122)",
         "rgb(204,155,122)", "rgb(204,122,144)", "rgb(204,122,198)",
         "rgb(155,122,204)", "rgb(122,144,204)", "rgb(122,198,204)"] ∧
      GraphBuilderHost.colors =
        (List.range 9).map
          (fun k => HSVtoRGB (((9 : ℚ) - (k : ℚ)) / 9 + 4/10) (4/10) (8/10)) :=
  ⟨by with_unfolding_all decide, by with_unfolding_all decide,
    by with_unfolding_all decide, by with_unfolding_all decide⟩

/-- C5: host creation pops one color off the end of the shared stack; when the
stack is empty at call time the constructor returns before consuming anything
and no host is produced; after the 9 consecutive allocations that drain the
full palette the `.add` affordance is disabled, and a 10th attempt changes
nothing and still produces no host. -/
theorem allocator_pop_empty_guard_disable :
    (∀ (ui : BuilderUI) (n : ℕ), ui.colors = [] → createHost ui n = (ui, none)) ∧
      (∀ (ui : BuilderUI) (n : ℕ), ui.colors ≠ [] →
        (createHost ui n).1.colors = ui.colors.dropLast ∧
          ∃ ch : CreatedHost, (createHost ui n).2 = some ch ∧
            some ch.color = ui.colors.getLast?) ∧
      (uiAfter 9).addDisabled = true ∧
      (uiAfter 9).colors = [] ∧
      createHost (uiAfter 9) 0 = (uiAfter 9, none) := by
  refine ⟨?_, ?_, by with_unfolding_all decide, by with_unfolding_all decide,
    by with_unfolding_all decide⟩
  · intro ui n h
    simp [createHost, h]
  · intro ui n h
    have hlen : ¬ ui.colors.length = 0 := by simpa using h
    obtain ⟨c, hc⟩ : ∃ c, ui.colors.getLast? = some c := by
      cases hco : ui.colors.getLast? with
      | some c => exact ⟨c, rfl⟩
      | none => exact absurd (List.getLast?_eq_none_iff.mp hco) h
    rw [createHost, if_neg hlen]
    by_cases h1 : ui.colors.length = 1 <;>
      simp [h1, hc]

theorem allocator_pop_empty_guard_disable_witness :
    createHost (BuilderUI.mk [] true none) 0 = (BuilderUI.mk [] true none, none) ∧
      ((createHost (BuilderUI.mk ["rgb(1,2,3)"] false none) 5).1.colors =
          (["rgb(1,2,3)"] : List String).dropLast ∧
        ∃ ch : CreatedHost,
          (createHost (BuilderUI.mk ["rgb(1,2,3)"] false none) 5).2 = some ch ∧
            some ch.color = (["rgb(1,2,3)"] : List String).getLast?) :=
  ⟨allocator_pop_empty_guard_disable.1 (BuilderUI.mk [] true none) 0 rfl,
    allocator_pop_empty_guard_disable.2.1 (BuilderUI.mk ["rgb(1,2,3)"] false none) 5
      (by decide)⟩

/-- C1: in every `resize()` call (Active state, IEEE-faithful region: nonzero
divisor) the margin is `totalMargin / (visibleHosts + viewCount - 2)` with
`totalMargin = middleWidth - visibleHosts * HOST_SQUARE_SIZE`, and whenever
that quotient is below `HOST_SQUARE_SIZE` the margin is clamped to
`HOST_SQUARE_SIZE` and `totalMargin` and `middleWidth` are recomputed as
`HOST_SQUARE_SIZE * (visibleHosts + viewCount - 2)` and
`totalMargin + visibleHosts * HOST_SQUARE_SIZE` before any width is applied
(the `visibleHosts = 1` override of step 6 is excluded so that the clamped
margin is observable in the returned fields). -/
theorem resize_margin_formula_and_clamp (g : Global) (perm : List String) (mw : ℚ)
    (hperm : g.hostPermutation = some perm)
    (hd : g.resizeDivisor perm ≠ 0) (hv : g.visibleHosts perm ≠ 1) :
    ∃ r : ResizeResult, g.resize mw = some r ∧
      (((mw - (g.visibleHosts perm : ℚ) * (HOST_SQUARE_SIZE : ℚ)) /
            (g.resizeDivisor perm : ℚ) < (HOST_SQUARE_SIZE : ℚ) →
          r.hostMargin = (HOST_SQUARE_SIZE : ℚ) ∧
            r.graphWidth = (HOST_SQUARE_SIZE : ℚ) * (g.resizeDivisor perm : ℚ) +
              (g.visibleHosts perm : ℚ) * (HOST_SQUARE_SIZE : ℚ)) ∧
        (¬ (mw - (g.visibleHosts perm : ℚ) * (HOST_SQUARE_SIZE : ℚ)) /
              (g.resizeDivisor perm : ℚ) < (HOST_SQUARE_SIZE : ℚ) →
          r.hostMargin = (mw - (g.visibleHosts perm : ℚ) * (HOST_SQUARE_SIZE : ℚ)) /
              (g.resizeDivisor perm : ℚ) ∧
            r.graphWidth = mw)) := by
  refine ⟨g.resizeWith perm mw, by simp [Global.resize, hperm], ?_, ?_⟩
  · intro hq
    simp only [Global.resizeWith, Global.resizeDivisor, Global.visibleHosts] at hq hd hv ⊢
    push_cast at hq hd hv ⊢
    simp [hd, hv, hq]
  · intro hq
    simp only [Global.resizeWith, Global.resizeDivisor, Global.visibleHosts] at hq hd hv ⊢
    push_cast at hq hd hv ⊢
    simp [hd, hv, hq]

theorem resize_margin_formula_and_clamp_witness :
    ∃ r : ResizeResult,
      Global.resize (Global.mk [View.mk ["a", "b", "c"] [] 0, View.mk ["a"] [] 0]
          (some ["a", "b", "c"])) 100 = some r ∧ r.hostMargin = (HOST_SQUARE_SIZE : ℚ) := by
  obtain ⟨r, hr, hcl, -⟩ :=
    resize_margin_formula_and_clamp
      (Global.mk [View.mk ["a", "b", "c"] [] 0, View.mk ["a"] [] 0] (some ["a", "b", "c"]))
      ["a", "b", "c"] 100 rfl (by with_unfolding_all decide) (by with_unfolding_all decide)
  exact ⟨r, hr, (hcl (by with_unfolding_all decide)).1⟩

/-- C2: whenever exactly one host is visible the computed `widthPerHost` equals
the (possibly recomputed) `middleWidth` and the returned margin is 0; otherwise
`widthPerHost = HOST_SQUARE_SIZE + hostMargin` (IEEE-faithful region: nonzero
divisor). -/
theorem resize_single_visible_host (g : Global) (perm : List String) (mw : ℚ)
    (hperm : g.hostPermutation = some perm) :
    ∃ r : ResizeResult, g.resize mw = some r ∧
      ((g.visibleHosts perm = 1 → r.widthPerHost = r.graphWidth ∧ r.hostMargin = 0) ∧
        (g.visibleHosts perm ≠ 1 → g.resizeDivisor perm ≠ 0 →
          r.widthPerHost = (HOST_SQUARE_SIZE : ℚ) + r.hostMargin)) := by
  refine ⟨g.resizeWith perm mw, by simp [Global.resize, hperm], ?_, ?_⟩
  · intro hv
    simp only [Global.resizeWith, Global.visibleHosts] at hv ⊢
    simp [hv]
  · intro hv hd
    simp only [Global.resizeWith, Global.resizeDivisor, Global.visibleHosts] at hv hd ⊢
    simp [hv]

theorem resize_single_visible_host_witness :
    ∃ r : ResizeResult,
      Global.resize (Global.mk [View.mk ["a"] [] 0] (some ["a"])) 100 = some r ∧
        (r.widthPerHost = r.graphWidth ∧ r.hostMargin = 0) := by
  obtain ⟨r, hr, hsingle, -⟩ :=
    resize_single_visible_host (Global.mk [View.mk ["a"] [] 0] (some ["a"])) ["a"] 100 rfl
  exact ⟨r, hr, hsingle (by with_unfolding_all decide)⟩

/-- C3: `resize()` sets every view's width to its own visible-host count (its
hosts minus the global hidden set) times `widthPerHost`, minus `hostMargin`,
with the same `widthPerHost` and `hostMargin` values (the ones the call
returns/exposes) used for every view in the list. -/
theorem resize_view_widths (g : Global) (perm : List String) (mw : ℚ)
    (hperm : g.hostPermutation = some perm)
    (hreg : g.resizeDivisor perm ≠ 0 ∨ g.visibleHosts perm = 1) :
    ∃ r : ResizeResult, g.resize mw = some r ∧
      r.views = g.views.map (fun vw =>
        { vw with width :=
            ((vw.hosts.filter (fun h => !(g.getHiddenHosts.contains h))).length : ℚ) *
              r.widthPerHost - r.hostMargin }) :=
  ⟨g.resizeWith perm mw, by simp [Global.resize, hperm], rfl⟩

theorem resize_view_widths_witness :
    ∃ r : ResizeResult,
      Global.resize (Global.mk [View.mk ["a", "b", "c"] ["b"] 0, View.mk ["a"] [] 0]
          (some ["a", "b", "c"])) 100 = some r ∧
        r.views = (Global.mk [View.mk ["a", "b", "c"] ["b"] 0, View.mk ["a"] [] 0]
            (some ["a", "b", "c"])).views.map (fun vw =>
          { vw with width :=
              ((vw.hosts.filter (fun h =>
                  !((Global.mk [View.mk ["a", "b", "c"] ["b"] 0, View.mk ["a"] [] 0]
                    (some ["a", "b", "c"])).getHiddenHosts.contains h))).length : ℚ) *
                r.widthPerHost - r.hostMargin }) :=
  resize_view_widths
    (Global.mk [View.mk ["a", "b", "c"] ["b"] 0, View.mk ["a"] [] 0] (some ["a", "b", "c"]))
    ["a", "b", "c"] 100 rfl (Or.inl (by with_unfolding_all decide))

theorem sideBarYs_closed (n : ℕ) :
    ∀ c y : ℕ, c ≤ hostsPerLine →
      sideBarYs n c y =
        (List.range n).map (fun k => y + (HOST_SQUARE_SIZE + 5) * ((k + c) / hostsPerLine)) := by
  have hpl : hostsPerLine = 8 := rfl
  have hsz : HOST_SQUARE_SIZE + 5 = 30 := rfl
  rw [hpl, hsz]
  induction n with
  | zero => intro c y hc; rfl
  | succ n ih =>
    intro c y hc
    rw [sideBarYs, hpl, hsz, List.range_succ_eq_map, List.map_cons, List.map_map]
    by_cases hwrap : 8 < c + 1
    · rw [if_pos hwrap, ih 1 (y + 30) (by omega)]
      rw [List.cons.injEq]
      refine ⟨?_, List.map_congr_left ?_⟩
      · omega
      · intro k hk
        simp only [Function.comp_apply, Nat.succ_eq_add_one]
        omega
    · rw [if_neg hwrap, ih (c + 1) y (by omega)]
      rw [List.cons.injEq]
      refine ⟨?_, List.map_congr_left ?_⟩
      · omega
      · intro k hk
        simp only [Function.comp_apply, Nat.succ_eq_add_one]
        omega

theorem sideBarXs_closed (n : ℕ) :
    ∀ j : ℕ, j + 1 ≤ hostsPerLine →
      sideBarXs n ((HOST_SQUARE_SIZE + 5) * j) =
        (List.range n).map (fun k => (HOST_SQUARE_SIZE + 5) * ((k + j + 1) % hostsPerLine)) := by
  have hpl : hostsPerLine = 8 := rfl
  have hsz : HOST_SQUARE_SIZE + 5 = 30 := rfl
  rw [hpl, hsz]
  induction n with
  | zero => intro j hj; rfl
  | succ n ih =>
    intro j hj
    rw [sideBarXs, List.range_succ_eq_map, List.map_cons, List.map_map]
    show (if SIDE_BAR_WIDTH < 30 * j + 30 + HOST_SQUARE_SIZE then
        0 :: sideBarXs n 0 else (30 * j + 30) :: sideBarXs n (30 * j + 30)) = _
    have hsb : SIDE_BAR_WIDTH = 240 := rfl
    have hsq : HOST_SQUARE_SIZE = 25 := rfl
    rw [hsb, hsq]
    by_cases hwrap : 240 < 30 * j + 30 + 25
    · rw [if_pos hwrap]
      have h0 := ih 0 (by omega)
      rw [show (30 : ℕ) * 0 = 0 from rfl] at h0
      rw [h0]
      rw [List.cons.injEq]
      refine ⟨?_, List.map_congr_left ?_⟩
      · omega
      · intro k hk
        simp only [Function.comp_apply, Nat.succ_eq_add_one]
        omega
    · rw [if_neg hwrap]
      have hstep := ih (j + 1) (by omega)
      rw [show (30 : ℕ) * (j + 1) = 30 * j + 30 by omega] at hstep
      rw [hstep]
      rw [List.cons.injEq]
      refine ⟨?_, List.map_congr_left ?_⟩
      · omega
      · intro k hk
        simp only [Function.comp_apply, Nat.succ_eq_add_one]
        omega

theorem sideBarXs_start (n : ℕ) :
    sideBarXs n SIDE_BAR_WIDTH =
      (List.range n).map (fun k => (HOST_SQUARE_SIZE + 5) * (k % hostsPerLine)) := by
  cases n with
  | zero => rfl
  | succ n =>
    rw [sideBarXs, List.range_succ_eq_map, List.map_cons, List.map_map]
    rw [if_pos (by decide)]
    have h0 := sideBarXs_closed n 0 (by decide)
    rw [show (HOST_SQUARE_SIZE + 5) * 0 = 0 from rfl] at h0
    rw [h0]
    rw [List.cons.injEq]
    refine ⟨?_, List.map_congr_left ?_⟩
    · simp only [hostsPerLine, HOST_SQUARE_SIZE, SIDE_BAR_WIDTH]
    · intro k hk
      simp only [Function.comp_apply, Nat.succ_eq_add_one, hostsPerLine, HOST_SQUARE_SIZE,
        SIDE_BAR_WIDTH]

theorem sideBarYs_start (n : ℕ) :
    sideBarYs n 0 0 =
      (List.range n).map (fun k => (HOST_SQUARE_SIZE + 5) * (k / hostsPerLine)) := by
  rw [sideBarYs_closed n 0 0 (by decide)]
  apply List.map_congr_left
  intro k hk
  simp only [hostsPerLine, HOST_SQUARE_SIZE, SIDE_BAR_WIDTH]
  omega

theorem rows_image_div (N : ℕ) :
    (Finset.range N).image (fun k => k / hostsPerLine) =
      Finset.range ((N + hostsPerLine - 1) / hostsPerLine) := by
  have hpl : hostsPerLine = 8 := rfl
  rw [hpl]
  ext j
  simp only [Finset.mem_image, Finset.mem_range]
  constructor
  · rintro ⟨k, hk, rfl⟩
    omega
  · intro hj
    exact ⟨8 * j, by omega, by omega⟩

theorem rows_card (N : ℕ) :
    ((List.range N).map (fun k => (HOST_SQUARE_SIZE + 5) * (k / hostsPerLine))).toFinset.card =
      (N + hostsPerLine - 1) / hostsPerLine := by
  have h1 : ((List.range N).map
      (fun k => (HOST_SQUARE_SIZE + 5) * (k / hostsPerLine))).toFinset =
      (Finset.range N).image (fun k => (HOST_SQUARE_SIZE + 5) * (k / hostsPerLine)) := by
    ext y
    simp [List.mem_map, List.mem_range, Finset.mem_image, Finset.mem_range]
  have h2 : (Finset.range N).image (fun k => (HOST_SQUARE_SIZE + 5) * (k / hostsPerLine)) =
      ((Finset.range N).image (fun k => k / hostsPerLine)).image
        (fun j => (HOST_SQUARE_SIZE + 5) * j) := by
    rw [Finset.image_image]
    rfl
  have h3 : (((Finset.range N).image (fun k => k / hostsPerLine)).image
      (fun j => (HOST_SQUARE_SIZE + 5) * j)).card =
      ((Finset.range N).image (fun k => k / hostsPerLine)).card :=
    Finset.card_image_of_injective _ (fun a b hab => by
      simp only [HOST_SQUARE_SIZE] at hab
      omega)
  rw [h1, h2, h3, rows_image_div, Finset.card_range]

/-- C7: `drawSideBar()` with zero hidden hosts hides the sidebar section and
returns before any grid layout; with `N > 0` hidden hosts it shows the section
and produces cell positions advancing by `HOST_SQUARE_SIZE + 5` pixels per
column, wrapping to a new row after `hostsPerLine` entries (x of square `k` is
`(HOST_SQUARE_SIZE+5)·(k mod hostsPerLine)`, y is
`(HOST_SQUARE_SIZE+5)·(k div hostsPerLine)`), using exactly
`⌈N / hostsPerLine⌉` distinct rows, where
`hostsPerLine = ⌊(SIDEBAR_WIDTH+5)/(HOST_SQUARE_SIZE+5)⌋`. -/
theorem drawSideBar_hide_and_grid_rows (g : Global) :
    (g.getHiddenHosts.length = 0 → g.drawSideBar = none) ∧
      ∀ l : SideBarLayout, g.drawSideBar = some l →
        l.xs = (List.range g.getHiddenHosts.length).map
            (fun k => (HOST_SQUARE_SIZE + 5) * (k % hostsPerLine)) ∧
          l.ys = (List.range g.getHiddenHosts.length).map
            (fun k => (HOST_SQUARE_SIZE + 5) * (k / hostsPerLine)) ∧
          l.ys.toFinset.card =
            (g.getHiddenHosts.length + hostsPerLine - 1) / hostsPerLine := by
  constructor
  · intro h0
    simp [Global.drawSideBar, h0]
  · intro l hl
    rw [Global.drawSideBar] at hl
    by_cases h0 : g.getHiddenHosts.length ≤ 0
    · simp [h0] at hl
    · rw [if_neg h0] at hl
      have hl2 := (Option.some_inj.mp hl).symm
      subst hl2
      refine ⟨sideBarXs_start _, sideBarYs_start _, ?_⟩
      rw [sideBarYs_start, rows_card]

theorem drawSideBar_hide_and_grid_rows_witness :
    Global.drawSideBar (Global.mk [] none) = none ∧
      (SideBarLayout.mk 55 [0, 30, 60, 90, 120, 150, 180, 210, 0]
          [0, 0, 0, 0, 0, 0, 0, 0, 30]).ys.toFinset.card = 2 := by
  constructor
  · exact (drawSideBar_hide_and_grid_rows (Global.mk [] none)).1 rfl
  · exact ((drawSideBar_hide_and_grid_rows
        (Global.mk [View.mk []
          ["h1", "h2", "h3", "h4", "h5", "h6", "h7", "h8", "h9"] 0] none)).2
      (SideBarLayout.mk 55 [0, 30, 60, 90, 120, 150, 180, 210, 0]
        [0, 0, 0, 0, 0, 0, 0, 0, 30]) (by decide)).2.2

theorem writeRef_readRef_ne (h : ViewsHeap) (r r2 : ℕ) (xs : List ℕ) (hne : r2 ≠ r) :
    (h.writeRef r2 xs).readRef r = h.readRef r := by
  simp [ViewsHeap.writeRef, ViewsHeap.readRef, List.get?_eq_getElem?,
    List.getElem?_set_ne hne]

/-- C9: `getViews()` returns a defensive copy: the fresh array is a different
object from `this.views`, its contents equal the internal list at call time,
and any sequence of in-place mutations the caller applies to the returned
array (appends, removals, reorderings: arbitrary new contents) leaves the
internal list unchanged. -/
theorem getViews_defensive_copy (h : ViewsHeap) (r : ℕ) (hr : r < h.cells.length)
    (ms : List (List ℕ)) :
    (h.getViews r).2 ≠ r ∧
      (h.getViews r).1.readRef (h.getViews r).2 = h.readRef r ∧
      (ms.foldl (fun hh xs => hh.writeRef (h.getViews r).2 xs) (h.getViews r).1).readRef r =
        h.readRef r := by
  have hne : h.cells.length ≠ r := by omega
  refine ⟨hne, ?_, ?_⟩
  · show (ViewsHeap.mk (h.cells ++ [h.readRef r])).readRef h.cells.length = h.readRef r
    simp [ViewsHeap.readRef, List.get?_eq_getElem?, List.getElem?_concat_length]
  · have frame : ∀ (l : List (List ℕ)) (hh : ViewsHeap),
        (l.foldl (fun hh xs => hh.writeRef h.cells.length xs) hh).readRef r =
          hh.readRef r := by
      intro l
      induction l with
      | nil => intro hh; rfl
      | cons x xs ih =>
        intro hh
        rw [List.foldl_cons, ih, writeRef_readRef_ne _ _ _ _ hne]
    have hgv : (h.getViews r).2 = h.cells.length := rfl
    rw [hgv, frame]
    show (ViewsHeap.mk (h.cells ++ [h.readRef r])).readRef r = h.readRef r
    simp only [ViewsHeap.readRef]
    rw [List.get?_eq_getElem?, List.get?_eq_getElem?, List.getElem?_append_left hr]

theorem getViews_defensive_copy_witness :
    (ViewsHeap.getViews (ViewsHeap.mk [[1, 2]]) 0).2 ≠ 0 ∧
      (ViewsHeap.getViews (ViewsHeap.mk [[1, 2]]) 0).1.readRef
          (ViewsHeap.getViews (ViewsHeap.mk [[1, 2]]) 0).2 =
        (ViewsHeap.mk [[1, 2]]).readRef 0 ∧
      (([[5], []] : List (List ℕ)).foldl
          (fun hh xs => hh.writeRef (ViewsHeap.getViews (ViewsHeap.mk [[1, 2]]) 0).2 xs)
          (ViewsHeap.getViews (ViewsHeap.mk [[1, 2]]) 0).1).readRef 0 =
        (ViewsHeap.mk [[1, 2]]).readRef 0 :=
  getViews_defensive_copy (ViewsHeap.mk [[1, 2]]) 0 (by decide) [[5], []]

theorem foldl_removeElem_sublist (ls : List ℕ) (s : Surface) :
    (ls.foldl Surface.removeElem s).elems.Sublist s.elems := by
  induction ls generalizing s with
  | nil => exact List.Sublist.refl _
  | cons e es ih => exact (ih (s.removeElem e)).trans (List.erase_sublist _ _)

theorem foldl_removeElem_not_mem (ls : List ℕ) (s : Surface) (hn : s.elems.Nodup) :
    ∀ l ∈ ls, l ∉ (ls.foldl Surface.removeElem s).elems := by
  induction ls generalizing s with
  | nil => intro l hl; cases hl
  | cons e es ih =>
    intro l hl
    rcases List.mem_cons.mp hl with rfl | hl2
    · intro hmem
      have h1 : l ∉ (s.removeElem l).elems := by
        intro hm2
        exact ((hn.mem_erase_iff).mp hm2).1 rfl
      exact h1 ((foldl_removeElem_sublist es (s.removeElem l)).subset hmem)
    · exact ih (s.removeElem e) (hn.erase e) l hl2

theorem removeNode_surface_sublist (h : GBHost) (s : Surface) (nd : GBNode) :
    (h.removeNode s nd).2.elems.Sublist s.elems :=
  (List.erase_sublist _ _).trans (foldl_removeElem_sublist nd.lines s)

theorem removeNode_surface_removed (h : GBHost) (s : Surface) (nd : GBNode)
    (hn : s.elems.Nodup) :
    nd.circle ∉ (h.removeNode s nd).2.elems ∧
      ∀ l ∈ nd.lines, l ∉ (h.removeNode s nd).2.elems := by
  have hn1 : (nd.lines.foldl Surface.removeElem s).elems.Nodup :=
    (foldl_removeElem_sublist nd.lines s).nodup hn
  constructor
  · intro hmem
    exact ((hn1.mem_erase_iff).mp hmem).1 rfl
  · intro l hl hmem
    exact foldl_removeElem_not_mem nd.lines s hn l hl ((List.erase_sublist _ _).subset hmem)

theorem removeNode_fst (h : GBHost) (s : Surface) (nd : GBNode)
    (hself : BuilderObj.host h.hid ∉ h.nodes) : (h.removeNode s nd).1 = h := by
  simp [GBHost.removeNode, arrayRemove, List.erase_of_not_mem hself]

theorem removeAllLoop_step_lt (h : GBHost) (s : Surface) (i : ℕ)
    (hlt : i < h.nodes.length) :
    h.removeAllLoop s i =
      match h.nodes.get ⟨i, hlt⟩ with
      | BuilderObj.node nd =>
          GBHost.removeAllLoop (h.removeNode s nd).1 (h.removeNode s nd).2 (i + 1)
      | BuilderObj.host _ => GBHost.removeAllLoop h s (i + 1) := by
  rw [GBHost.removeAllLoop, dif_pos hlt]

theorem removeAllLoop_step_ge (h : GBHost) (s : Surface) (i : ℕ)
    (hge : ¬ i < h.nodes.length) :
    h.removeAllLoop s i = (h, s) := by
  rw [GBHost.removeAllLoop, dif_neg hge]

theorem removeAllLoop_spec (h : GBHost) (hself : BuilderObj.host h.hid ∉ h.nodes) :
    ∀ (n i : ℕ) (s : Surface), h.nodes.length - i ≤ n → s.elems.Nodup →
      (h.removeAllLoop s i).1 = h ∧
        (h.removeAllLoop s i).2.elems.Sublist s.elems ∧
        ∀ (k : ℕ) (hk : k < h.nodes.length), i ≤ k →
          ∀ n2 : GBNode, h.nodes.get ⟨k, hk⟩ = BuilderObj.node n2 →
            n2.circle ∉ (h.removeAllLoop s i).2.elems := by
  intro n
  induction n with
  | zero =>
    intro i s hni hn
    rw [removeAllLoop_step_ge h s i (by omega)]
    exact ⟨rfl, List.Sublist.refl _, fun k hk hik n2 _ => absurd hk (by omega)⟩
  | succ n ih =>
    intro i s hni hn
    by_cases hlt : i < h.nodes.length
    · rw [removeAllLoop_step_lt h s i hlt]
      split
      · next nd heq =>
        have hfst : (h.removeNode s nd).1 = h := removeNode_fst h s nd hself
        rw [hfst]
        have hsub : (h.removeNode s nd).2.elems.Sublist s.elems :=
          removeNode_surface_sublist h s nd
        have hnd2 : (h.removeNode s nd).2.elems.Nodup := hsub.nodup hn
        obtain ⟨e1, e2, e3⟩ := ih (i + 1) (h.removeNode s nd).2 (by omega) hnd2
        refine ⟨e1, e2.trans hsub, ?_⟩
        intro k hk hik n2 hkn2
        rcases Nat.eq_or_lt_of_le hik with heqik | hlt2
        · have hsame : h.nodes.get ⟨k, hk⟩ = h.nodes.get ⟨i, hlt⟩ := by
            subst heqik; rfl
          have hnn : BuilderObj.node n2 = BuilderObj.node nd := by
            rw [← hkn2, hsame, heq]
          have hn2nd : n2 = nd := by injection hnn
          subst hn2nd
          have hcirc : n2.circle ∉ (h.removeNode s n2).2.elems :=
            (removeNode_surface_removed h s n2 hn).1
          exact fun hmem => hcirc (e2.subset hmem)
        · exact e3 k hk hlt2 n2 hkn2
      · next hid2 heq =>
        obtain ⟨e1, e2, e3⟩ := ih (i + 1) s (by omega) hn
        refine ⟨e1, e2, ?_⟩
        intro k hk hik n2 hkn2
        rcases Nat.eq_or_lt_of_le hik with heqik | hlt2
        · have hsame : h.nodes.get ⟨k, hk⟩ = h.nodes.get ⟨i, hlt⟩ := by
            subst heqik; rfl
          rw [hsame, heq] at hkn2
          cases hkn2
        · exact e3 k hk hlt2 n2 hkn2
    · rw [removeAllLoop_step_ge h s i hlt]
      exact ⟨rfl, List.Sublist.refl _, fun k hk hik n2 _ => absurd hk (by omega)⟩

/-- C10: `removeNode(n)` detaches `n`'s circle and connecting lines from the
drawing surface but leaves the host's `nodes` array unchanged (the
`Array.remove(this.nodes, this)` call passes the host object, which is never an
element of its own nodes array); the array becomes empty only through
`removeAllNodes()`, which visits every node (each node's circle ends up
detached) and then assigns a fresh empty array. -/
theorem removeNode_frame_removeAllNodes_clears (h : GBHost) (s : Surface) (nd : GBNode)
    (hself : BuilderObj.host h.hid ∉ h.nodes) (hn : s.elems.Nodup) :
    (h.removeNode s nd).1.nodes = h.nodes ∧
      nd.circle ∉ (h.removeNode s nd).2.elems ∧
      (∀ l ∈ nd.lines, l ∉ (h.removeNode s nd).2.elems) ∧
      (h.removeAllNodes s).1.nodes = [] ∧
      ∀ x ∈ h.nodes, ∀ n2 : GBNode, x = BuilderObj.node n2 →
        n2.circle ∉ (h.removeAllNodes s).2.elems := by
  obtain ⟨hc, hls⟩ := removeNode_surface_removed h s nd hn
  refine ⟨by rw [removeNode_fst h s nd hself], hc, hls, rfl, ?_⟩
  intro x hx n2 hxn2
  obtain ⟨⟨k, hk⟩, hget⟩ := List.mem_iff_get.mp hx
  exact (removeAllLoop_spec h hself h.nodes.length 0 s (by omega) hn).2.2 k hk (by omega)
    n2 (by rw [hget, hxn2])

theorem removeNode_frame_removeAllNodes_clears_witness :
    ((GBHost.mk 7 [BuilderObj.node (GBNode.mk 1 10 [20, 21]),
        BuilderObj.node (GBNode.mk 2 11 [22])]).removeNode (Surface.mk [10, 11, 20, 21, 22])
          (GBNode.mk 1 10 [20, 21])).1.nodes =
        (GBHost.mk 7 [BuilderObj.node (GBNode.mk 1 10 [20, 21]),
          BuilderObj.node (GBNode.mk 2 11 [22])]).nodes ∧
      (GBNode.mk 1 10 [20, 21]).circle ∉
        ((GBHost.mk 7 [BuilderObj.node (GBNode.mk 1 10 [20, 21]),
          BuilderObj.node (GBNode.mk 2 11 [22])]).removeNode
            (Surface.mk [10, 11, 20, 21, 22]) (GBNode.mk 1 10 [20, 21])).2.elems ∧
      (∀ l ∈ (GBNode.mk 1 10 [20, 21]).lines, l ∉
        ((GBHost.mk 7 [BuilderObj.node (GBNode.mk 1 10 [20, 21]),
          BuilderObj.node (GBNode.mk 2 11 [22])]).removeNode
            (Surface.mk [10, 11, 20, 21, 22]) (GBNode.mk 1 10 [20, 21])).2.elems) ∧
      ((GBHost.mk 7 [BuilderObj.node (GBNode.mk 1 10 [20, 21]),
        BuilderObj.node (GBNode.mk 2 11 [22])]).removeAllNodes
          (Surface.mk [10, 11, 20, 21, 22])).1.nodes = [] ∧
      ∀ x ∈ (GBHost.mk 7 [BuilderObj.node (GBNode.mk 1 10 [20, 21]),
          BuilderObj.node (GBNode.mk 2 11 [22])]).nodes,
        ∀ n2 : GBNode, x = BuilderObj.node n2 →
          n2.circle ∉ ((GBHost.mk 7 [BuilderObj.node (GBNode.mk 1 10 [20, 21]),
            BuilderObj.node (GBNode.mk 2 11 [22])]).removeAllNodes
              (Surface.mk [10, 11, 20, 21, 22])).2.elems :=
  removeNode_frame_removeAllNodes_clears
    (GBHost.mk 7 [BuilderObj.node (GBNode.mk 1 10 [20, 21]),
      BuilderObj.node (GBNode.mk 2 11 [22])])
    (Surface.mk [10, 11, 20, 21, 22]) (GBNode.mk 1 10 [20, 21]) (by decide) (by decide)
